import Mathlib

/-!
Shallow embedding of the `plasmactl-update` self-update pipeline
(package `plasmactlupdate`): platform probing (`getOS`, `getArch`),
credential resolution (`getCredentials`), HTTP steps
(`validateCredentials`, `getStableRelease`, `downloadFile`),
the write-permission probe (`hasWritePermissions`) and the installer
(`installFile`), together with the driving pipeline (`runCommands`).

Filesystem and network activity is made explicit as a list of effects
(`Eff`); a small filesystem model (`FS`, `applyEff`, `statesOf`) lets us
speak about every intermediate filesystem state of a run.
-/

deriving instance DecidableEq for Except

namespace PlasmactlUpdate

/-- Characters before the first separator, paired with the rest
(helper for splitting a path on a separator character). -/
def splitCharAux (sep : Char) : List Char → List Char → List (List Char)
  | [], acc => [acc.reverse]
  | c :: cs, acc =>
    if c = sep then acc.reverse :: splitCharAux sep cs []
    else splitCharAux sep cs (c :: acc)

/-- The components of a clean unix path (`strings.Split(p, "/")`). -/
def pathParts (p : String) : List (List Char) :=
  splitCharAux '/' p.data []

/-- Rejoining path components with the separator. -/
def joinParts : List (List Char) → List Char
  | [] => []
  | [x] => x
  | x :: y :: ys => x ++ '/' :: joinParts (y :: ys)

/-- Leading-whitespace removal at the character level. -/
def dropWS : List Char → List Char
  | [] => []
  | c :: cs => if c.isWhitespace then dropWS cs else c :: cs

/-- `strings.TrimSpace`: remove leading and trailing whitespace. -/
def trimString (s : String) : String :=
  String.mk ((dropWS (dropWS s.data).reverse).reverse)

/-- HTTP response as seen by the update pipeline: a status code and a body.
`none` at call sites stands for a transport-level failure (no response). -/
structure HTTPResponse where
  status : Nat
  body : String
deriving DecidableEq, Repr

/-- Errors of the update pipeline, mirroring the error values of the source:
`errUnsupportedOS`, `errUnsupportedArch`, `errInvalidCreds`,
`errMalformedKeyring`, `keyring.ErrEmptyPass`, `errNoWritePermission`,
transport failures, configuration errors and generic filesystem errors. -/
inductive UErr where
  | unsupportedOS
  | unsupportedArch
  | invalidCreds
  | malformedKeyring
  | emptyPass
  | noWritePermission
  | netFailure
  | configMissing
  | configInvalid
  | fsError
deriving DecidableEq, Repr

/-- Credentials item of the keyring collaborator: `{URL, Username, Password}`. -/
structure CredentialsItem where
  url : String
  username : String
  password : String
deriving DecidableEq, Repr

/-- Observable effects of a pipeline run: network GETs, filesystem
mutations, elevation-command invocations (`sudo`/`doas` + `chmod`),
keyring operations and the interactive credentials prompt. -/
inductive Eff where
  | netGet (url : String)
  | fsCreate (path : String)
  | fsAppend (path : String) (data : String)
  | fsWrite (path : String) (data : String)
  | fsRename (src : String) (dst : String)
  | fsChmod (path : String) (perm : Nat)
  | fsRemove (path : String)
  | elevChmod (perm : Nat) (path : String)
  | keyringAdd (item : CredentialsItem)
  | keyringSave
  | promptTty
deriving DecidableEq, Repr

/-- Effects that mutate the filesystem (the elevation command runs `chmod`,
so it is a filesystem mutation as well). -/
def isFsMutation : Eff → Bool
  | .fsCreate _ => true
  | .fsAppend _ _ => true
  | .fsWrite _ _ => true
  | .fsRename _ _ => true
  | .fsChmod _ _ => true
  | .fsRemove _ => true
  | .elevChmod _ _ => true
  | _ => false

/-- Embedding of `getOS` (update.go): `runtime.GOOS` must be `linux` or
`darwin`, anything else is `errUnsupportedOS`. -/
def getOS (goos : String) : Except UErr String :=
  if goos = "linux" ∨ goos = "darwin" then .ok goos else .error .unsupportedOS

/-- Embedding of `getArch` (update.go): `runtime.GOARCH` must be `amd64`,
`386` or `arm64`, returned unchanged; anything else is `errUnsupportedArch`. -/
def getArch (goarch : String) : Except UErr String :=
  if goarch = "amd64" ∨ goarch = "386" ∨ goarch = "arm64" then .ok goarch
  else .error .unsupportedArch

/-- The `stat` data of the destination directory used by the permission
probe: the 9 permission bits, the owner UID and the group GID
(`syscall.Stat_t`). Group IDs are modeled as naturals; the source compares
their decimal string renderings, which is equivalent. -/
structure DirStat where
  perm : Nat
  ownerUID : Nat
  groupGID : Nat
deriving DecidableEq, Repr

/-- Embedding of `hasWritePermissions` (file_unix.go): grants write access
iff the current UID owns the directory and the owner-write bit (bit 7) is
set, or the group-write bit (bit 4) is set and the directory's GID is among
the current user's groups. Otherwise `errNoWritePermission`. -/
def hasWritePermissions (st : DirStat) (currentUID : Nat) (groups : List Nat) :
    Except UErr Unit :=
  let hasOwnerWrite := st.perm.testBit 7
  let hasGroupWrite := st.perm.testBit 4 && groups.contains st.groupGID
  if (currentUID == st.ownerUID && hasOwnerWrite) || hasGroupWrite then .ok ()
  else .error .noWritePermission

/-- The two install strategies of `installFile`. -/
inductive InstallPath where
  | direct
  | elevated
deriving DecidableEq, Repr

/-- How `installFile` (update.go) dispatches on the probe result: probe ok →
direct install; `errNoWritePermission` → elevated install (`sudoRequired`);
any other probe error aborts the install. -/
def chooseInstallPath (probe : Except UErr Unit) : Except UErr InstallPath :=
  match probe with
  | .ok _ => .ok .direct
  | .error .noWritePermission => .ok .elevated
  | .error e => .error e

/-- Last path component, as `filepath.Base` on a clean unix path. -/
def baseName (p : String) : String :=
  String.mk ((pathParts p).getLastD [])

/-- All but the last path component, as `filepath.Dir` on a clean unix path. -/
def dirName (p : String) : String :=
  String.mk (joinParts (pathParts p).dropLast)

/-- `filepath.Join` on a clean unix directory and a file name. -/
def joinPath (dir file : String) : String :=
  dir ++ "/" ++ file

/-- The path data `findExecPaths` derives from the running executable. -/
structure ExecPaths where
  fDir : String
  fPath : String
  fName : String
  fTmpPath : String
deriving DecidableEq, Repr

/-- Embedding of `findExecPaths` (update.go): resolve the running
executable (following a symlink when present), then derive the install
directory, the final path, the file name, and the temporary download path
`filepath.Join(os.TempDir(), fName)`. -/
def findExecPaths (execPath : String) (isSymlink : Bool) (resolvedPath : String)
    (tempDir : String) : ExecPaths :=
  let path := if isSymlink then resolvedPath else execPath
  { fDir := dirName path
    fPath := trimString path
    fName := baseName path
    fTmpPath := joinPath tempDir (baseName path) }

/-- Outcome of the keyring lookup `k.GetForURL(url)`: an item was found, or
the lookup failed with `keyring.ErrEmptyPass`, `keyring.ErrNotFound`, or any
other error (undecryptable or corrupt store). -/
inductive KeyringLookup where
  | found (item : CredentialsItem)
  | errEmptyPass
  | errNotFound
  | errOther
deriving DecidableEq, Repr

/-- Embedding of `getCredentials` (update.go). A found item is returned
unchanged. `ErrEmptyPass` is propagated. Any other lookup failure that is
not `ErrNotFound` becomes `errMalformedKeyring`. On `ErrNotFound` the item
is built from the flag values (prompting on the terminal when either flag
is empty), added to the keyring, and saved when the keyring store exists. -/
def getCredentials (lookup : KeyringLookup) (url flagUser flagPass : String)
    (promptUser promptPass : String) (keyringExists : Bool) :
    Except UErr CredentialsItem × List Eff :=
  match lookup with
  | .found ci => (.ok ci, [])
  | .errEmptyPass => (.error .emptyPass, [])
  | .errOther => (.error .malformedKeyring, [])
  | .errNotFound =>
    let (ci, effs) :=
      if flagUser = "" ∨ flagPass = "" then
        (⟨url, promptUser, promptPass⟩, [Eff.promptTty])
      else
        (⟨url, flagUser, flagPass⟩, ([] : List Eff))
    let effs := effs ++ [Eff.keyringAdd ci]
    let effs := if keyringExists then effs ++ [Eff.keyringSave] else effs
    (.ok ci, effs)

/-- Embedding of `validateCredentials` (update.go): a GET on the repository
URL; status 0, 401 and 404 all map to `errInvalidCreds`; 200 succeeds; any
other status prints a message and succeeds. -/
def validateCredentials (resp : Option HTTPResponse) : Except UErr Unit :=
  match resp with
  | none => .error .netFailure
  | some r =>
    if r.status = 0 then .error .invalidCreds
    else if r.status = 200 then .ok ()
    else if r.status = 401 then .error .invalidCreds
    else if r.status = 404 then .error .invalidCreds
    else .ok ()

/-- Embedding of `getStableRelease` (update.go): GET the stable-release URL
and return the trimmed response body. The status code is never inspected. -/
def getStableRelease (url : String) (resp : Option HTTPResponse) :
    Except UErr String × List Eff :=
  match resp with
  | none => (.error .netFailure, [Eff.netGet url])
  | some r => (.ok (trimString r.body), [Eff.netGet url])

/-- Embedding of `downloadFile` (update.go): GET the binary URL, create the
temporary file, stream the body into it, and add the executable bits
(`mode | 0111`) to its current mode. The status code is never inspected;
only a transport failure aborts before the temporary file is created. -/
def downloadFile (url : String) (resp : Option HTTPResponse)
    (fTmpPath : String) (tmpPerm : Nat) : Except UErr Unit × List Eff :=
  match resp with
  | none => (.error .netFailure, [Eff.netGet url])
  | some r =>
    (.ok (), [Eff.netGet url, Eff.fsCreate fTmpPath, Eff.fsWrite fTmpPath r.body,
              Eff.fsChmod fTmpPath (tmpPerm ||| 0o111)])

/-- Embedding of `setPermissions` (update.go): run `chmod` on the target,
through the elevation command (`sudo`/`doas`) when requested. -/
def setPermissions (perm : Nat) (target : String) (useSudo : Bool) : Eff :=
  if useSudo then .elevChmod perm target else .fsChmod target perm

/-- Failure-injection points for a run of `installFile`: no failure, or a
failure of the source-open, directory-stat, destination-create, copy (after
`k` chunks were written), rename, or final-chmod operation. A failure point
naming an operation the run never executes leaves the run unaffected. -/
inductive FailPoint where
  | noFail
  | atOpenSrc
  | atStatDir
  | atCreateDst
  | atCopy (k : Nat)
  | atRename
  | atChmodFile
deriving DecidableEq, Repr

/-- Body of `installFile` (update.go) once the install strategy is known.
With `sudo` set it stats the directory, sets it to mode `777` through the
elevation command and defers the restoration of the original bits
`origPerm`, so the restoring invocation is the last effect on every exit
path that reaches the `777` step. Then (both strategies): create
`fPath + ".tmp"`, stream-copy the downloaded chunks into it, rename it onto
`fPath`, and set the final mode `755`. -/
def installWith (useSudo : Bool) (fDir fPath : String) (origPerm : Nat)
    (chunks : List String) (fail : FailPoint) : Except UErr Unit × List Eff :=
  if fail = .atOpenSrc then (.error .fsError, [])
  else if useSudo = true ∧ fail = .atStatDir then (.error .fsError, [])
  else
    let pre : List Eff := if useSudo then [.elevChmod 0o777 fDir] else []
    let post : List Eff := if useSudo then [.elevChmod origPerm fDir] else []
    let tmpName := fPath ++ ".tmp"
    match fail with
    | .atCreateDst => (.error .fsError, pre ++ post)
    | .atCopy k =>
      (.error .fsError,
       pre ++ Eff.fsCreate tmpName :: (chunks.take k).map (Eff.fsAppend tmpName) ++ post)
    | .atRename =>
      (.error .fsError,
       pre ++ Eff.fsCreate tmpName :: chunks.map (Eff.fsAppend tmpName) ++ post)
    | .atChmodFile =>
      (.error .fsError,
       pre ++ Eff.fsCreate tmpName :: chunks.map (Eff.fsAppend tmpName)
           ++ [Eff.fsRename tmpName fPath] ++ post)
    | _ =>
      (.ok (),
       pre ++ Eff.fsCreate tmpName :: chunks.map (Eff.fsAppend tmpName)
           ++ [Eff.fsRename tmpName fPath, setPermissions 0o755 fPath useSudo] ++ post)

/-- Embedding of `installFile` (update.go): dispatch on the write-permission
probe — probe ok → direct install, `errNoWritePermission` → elevated
install, any other probe error aborts — then run the install body. -/
def installFile (probe : Except UErr Unit) (fDir fPath : String) (origPerm : Nat)
    (chunks : List String) (fail : FailPoint) : Except UErr Unit × List Eff :=
  match chooseInstallPath probe with
  | .ok .direct => installWith false fDir fPath origPerm chunks fail
  | .ok .elevated => installWith true fDir fPath origPerm chunks fail
  | .error e => (.error e, [])

/-- Whether an effect changes the file contents stored at path `p`. -/
def writesPath (p : String) : Eff → Bool
  | .fsCreate q => q == p
  | .fsAppend q _ => q == p
  | .fsWrite q _ => q == p
  | .fsRename a b => a == p || b == p
  | .fsRemove q => q == p
  | _ => false

/-- Whether an effect changes the permission bits stored at path `p`. -/
def touchesPerms (p : String) : Eff → Bool
  | .fsChmod q _ => q == p
  | .elevChmod _ q => q == p
  | .fsRename _ b => b == p
  | _ => false

/-- A filesystem model: contents and permission bits per path. -/
structure FS where
  contents : String → Option String
  perms : String → Nat

/-- Interpretation of one effect on the filesystem model. Network, keyring
and prompt effects leave the filesystem unchanged. -/
def applyEff (fs : FS) : Eff → FS
  | .fsCreate p =>
    { fs with contents := fun q => if q = p then some "" else fs.contents q }
  | .fsAppend p d =>
    { fs with contents := fun q =>
        if q = p then some ((fs.contents p).getD "" ++ d) else fs.contents q }
  | .fsWrite p d =>
    { fs with contents := fun q => if q = p then some d else fs.contents q }
  | .fsRename a b =>
    { contents := fun q =>
        if q = b then fs.contents a else if q = a then none else fs.contents q
      perms := fun q =>
        if q = b then fs.perms a else fs.perms q }
  | .fsRemove p =>
    { fs with contents := fun q => if q = p then none else fs.contents q }
  | .fsChmod p m =>
    { fs with perms := fun q => if q = p then m else fs.perms q }
  | .elevChmod m p =>
    { fs with perms := fun q => if q = p then m else fs.perms q }
  | _ => fs

/-- The filesystem after a list of effects. -/
def applyEffs (fs : FS) (effs : List Eff) : FS :=
  effs.foldl applyEff fs

/-- Every filesystem state visible during a list of effects, the initial
state included. -/
def statesOf (fs : FS) : List Eff → List FS
  | [] => [fs]
  | e :: es => fs :: statesOf (applyEff fs e) es

/-- Update configuration: repository URL, stable-release endpoint and the
binary URL mask. -/
structure Config where
  repositoryURL : String
  latestStable : String
  binMask : String
deriving DecidableEq, Repr

/-- Rendering of the binary URL mask `"%s/%s/plasmactl_%s_%s%s"` with
(base URL, version, OS, arch, extension). -/
def renderBinURL (base version osName arch ext : String) : String :=
  base ++ "/" ++ version ++ "/plasmactl_" ++ osName ++ "_" ++ arch ++ ext

/-- Embedding of `isUpToDate` (plugin.go): a plain string equality between
the running version and the resolved stable release. -/
def isUpToDate (currentVersion stableRelease : String) : Bool :=
  currentVersion == stableRelease

/-- The host environment a pipeline run observes: platform identifiers,
resolved configuration, keyring state, command-line credential flags,
interactive input, executable location, destination-directory `stat` data,
current user identity, the three HTTP responses the run may receive, the
running version, the downloaded content split into copy chunks, and an
injected failure point for the install phase. -/
structure Env where
  goos : String
  goarch : String
  cfg : Option Config
  lookup : KeyringLookup
  flagUser : String
  flagPass : String
  promptUser : String
  promptPass : String
  keyringExists : Bool
  execPath : String
  isSymlink : Bool
  resolvedPath : String
  tempDir : String
  dirStat : DirStat
  currentUID : Nat
  groups : List Nat
  validateResp : Option HTTPResponse
  releaseResp : Option HTTPResponse
  binResp : Option HTTPResponse
  currentVersion : String
  ext : String
  tmpPerm : Nat
  copyChunks : List String
  failPoint : FailPoint

/-- The state `initVars` leaves behind on success. -/
structure InitVars where
  osName : String
  arch : String
  paths : ExecPaths
  creds : CredentialsItem
  cfg : Config
deriving DecidableEq, Repr

/-- Embedding of `initVars` (update.go): detect OS, detect architecture,
resolve and validate the configuration (the repository URL must be
non-empty), resolve credentials for the repository URL, and derive the
executable paths. No network request is issued here. -/
def initVars (env : Env) : Except UErr InitVars × List Eff :=
  match getOS env.goos with
  | .error e => (.error e, [])
  | .ok osName =>
    match getArch env.goarch with
    | .error e => (.error e, [])
    | .ok arch =>
      match env.cfg with
      | none => (.error .configMissing, [])
      | some cfg =>
        if cfg.repositoryURL = "" then (.error .configInvalid, [])
        else
          match getCredentials env.lookup cfg.repositoryURL env.flagUser
              env.flagPass env.promptUser env.promptPass env.keyringExists with
          | (.error e, effs) => (.error e, effs)
          | (.ok ci, effs) =>
            (.ok { osName := osName, arch := arch
                   paths := findExecPaths env.execPath env.isSymlink
                     env.resolvedPath env.tempDir
                   creds := ci, cfg := cfg }, effs)

/-- Embedding of `runCommands` (plugin.go): initialise, validate
credentials against the repository URL, fetch the stable release, stop
successfully when the running version is up to date, otherwise download the
binary to the temporary path and install it over the running executable. -/
def runCommands (env : Env) : Except UErr Unit × List Eff :=
  match initVars env with
  | (.error e, effs) => (.error e, effs)
  | (.ok v, effs0) =>
    let effs1 := effs0 ++ [Eff.netGet v.cfg.repositoryURL]
    match validateCredentials env.validateResp with
    | .error e => (.error e, effs1)
    | .ok _ =>
      let stableURL := v.cfg.repositoryURL ++ "/" ++ v.cfg.latestStable
      match getStableRelease stableURL env.releaseResp with
      | (.error e, reffs) => (.error e, effs1 ++ reffs)
      | (.ok stableRelease, reffs) =>
        let effs2 := effs1 ++ reffs
        if isUpToDate env.currentVersion stableRelease then (.ok (), effs2)
        else
          let binURL := renderBinURL v.cfg.repositoryURL stableRelease
            v.osName v.arch env.ext
          match downloadFile binURL env.binResp v.paths.fTmpPath env.tmpPerm with
          | (.error e, deffs) => (.error e, effs2 ++ deffs)
          | (.ok _, deffs) =>
            let probe := hasWritePermissions env.dirStat env.currentUID env.groups
            match installFile probe v.paths.fDir v.paths.fPath
                env.dirStat.perm env.copyChunks env.failPoint with
            | (.error e, ieffs) => (.error e, effs2 ++ deffs ++ ieffs)
            | (.ok _, ieffs) => (.ok (), effs2 ++ deffs ++ ieffs)

/-! Helper lemmas about the filesystem model. -/

/-- Appending a nonempty suffix to a string changes it; in particular the
sibling temporary name `fPath + ".tmp"` never equals `fPath` itself. -/
theorem append_tmp_ne (s : String) : s ++ ".tmp" ≠ s := by
  intro h
  have h4 : (".tmp" : String).length = 4 := rfl
  have hlen := String.length_append s ".tmp"
  rw [h, h4] at hlen
  omega

/-- An effect that does not write path `p` leaves its contents unchanged. -/
theorem applyEff_contents (fs : FS) (e : Eff) (p : String)
    (h : writesPath p e = false) : (applyEff fs e).contents p = fs.contents p := by
  cases e with
  | fsCreate q =>
    simp [writesPath] at h
    show (if p = q then some "" else fs.contents p) = fs.contents p
    exact if_neg (Ne.symm h)
  | fsAppend q d =>
    simp [writesPath] at h
    show (if p = q then _ else fs.contents p) = fs.contents p
    exact if_neg (Ne.symm h)
  | fsWrite q d =>
    simp [writesPath] at h
    show (if p = q then some d else fs.contents p) = fs.contents p
    exact if_neg (Ne.symm h)
  | fsRename a b =>
    simp [writesPath] at h
    show (if p = b then fs.contents a else if p = a then none else fs.contents p) =
      fs.contents p
    rw [if_neg (Ne.symm h.2), if_neg (Ne.symm h.1)]
  | fsRemove q =>
    simp [writesPath] at h
    show (if p = q then none else fs.contents p) = fs.contents p
    exact if_neg (Ne.symm h)
  | fsChmod q m => rfl
  | elevChmod m q => rfl
  | netGet u => rfl
  | keyringAdd i => rfl
  | keyringSave => rfl
  | promptTty => rfl

/-- An effect that does not touch the permissions of path `p` leaves them
unchanged. -/
theorem applyEff_perms (fs : FS) (e : Eff) (p : String)
    (h : touchesPerms p e = false) : (applyEff fs e).perms p = fs.perms p := by
  cases e with
  | fsRename a b =>
    simp [touchesPerms] at h
    show (if p = b then fs.perms a else fs.perms p) = fs.perms p
    exact if_neg (Ne.symm h)
  | fsChmod q m =>
    simp [touchesPerms] at h
    show (if p = q then m else fs.perms p) = fs.perms p
    exact if_neg (Ne.symm h)
  | elevChmod m q =>
    simp [touchesPerms] at h
    show (if p = q then m else fs.perms p) = fs.perms p
    exact if_neg (Ne.symm h)
  | fsCreate q => rfl
  | fsAppend q d => rfl
  | fsWrite q d => rfl
  | fsRemove q => rfl
  | netGet u => rfl
  | keyringAdd i => rfl
  | keyringSave => rfl
  | promptTty => rfl

/-- A list of effects none of which writes `p` leaves its contents unchanged. -/
theorem applyEffs_contents (effs : List Eff) (fs : FS) (p : String)
    (h : ∀ e ∈ effs, writesPath p e = false) :
    (applyEffs fs effs).contents p = fs.contents p := by
  induction effs generalizing fs with
  | nil => rfl
  | cons e es ih =>
    rw [applyEffs, List.foldl_cons]
    rw [show List.foldl applyEff (applyEff fs e) es = applyEffs (applyEff fs e) es from rfl]
    rw [ih (applyEff fs e) fun x hx => h x (List.mem_cons_of_mem e hx)]
    exact applyEff_contents fs e p (h e (List.mem_cons_self e es))

/-- A list of effects none of which touches the permissions of `p` leaves
them unchanged. -/
theorem applyEffs_perms (effs : List Eff) (fs : FS) (p : String)
    (h : ∀ e ∈ effs, touchesPerms p e = false) :
    (applyEffs fs effs).perms p = fs.perms p := by
  induction effs generalizing fs with
  | nil => rfl
  | cons e es ih =>
    rw [applyEffs, List.foldl_cons]
    rw [show List.foldl applyEff (applyEff fs e) es = applyEffs (applyEff fs e) es from rfl]
    rw [ih (applyEff fs e) fun x hx => h x (List.mem_cons_of_mem e hx)]
    exact applyEff_perms fs e p (h e (List.mem_cons_self e es))

/-- `applyEffs` distributes over list concatenation. -/
theorem applyEffs_append (fs : FS) (l1 l2 : List Eff) :
    applyEffs fs (l1 ++ l2) = applyEffs (applyEffs fs l1) l2 := by
  simp [applyEffs, List.foldl_append]

/-- The state list is never empty. -/
theorem statesOf_ne_nil (fs : FS) (effs : List Eff) : statesOf fs effs ≠ [] := by
  cases effs <;> simp [statesOf]

/-- The state list of a concatenation: the states of the first part (its
final state elided) followed by the states of the second part. -/
theorem statesOf_append (fs : FS) (l1 l2 : List Eff) :
    statesOf fs (l1 ++ l2) =
      (statesOf fs l1).dropLast ++ statesOf (applyEffs fs l1) l2 := by
  induction l1 generalizing fs with
  | nil => simp [statesOf, applyEffs]
  | cons e es ih =>
    rw [List.cons_append, statesOf, statesOf,
      List.dropLast_cons_of_ne_nil (statesOf_ne_nil _ _), List.cons_append, ih]
    rfl

/-- Every state reached over effects that never write `p` keeps the
contents of `p`. -/
theorem statesOf_contents (effs : List Eff) (fs : FS) (p : String)
    (h : ∀ e ∈ effs, writesPath p e = false) :
    ∀ s ∈ statesOf fs effs, s.contents p = fs.contents p := by
  induction effs generalizing fs with
  | nil =>
    intro s hs
    simp [statesOf] at hs
    rw [hs]
  | cons e es ih =>
    intro s hs
    rw [statesOf] at hs
    rcases List.mem_cons.mp hs with h1 | h1
    · rw [h1]
    · rw [ih (applyEff fs e) (fun x hx => h x (List.mem_cons_of_mem e hx)) s h1]
      exact applyEff_contents fs e p (h e (List.mem_cons_self e es))

/-- Streaming a list of chunks into an existing file accumulates them in
order onto the existing contents. -/
theorem applyEffs_appends (cs : List String) (fs : FS) (tmp : String) (acc : String)
    (h : fs.contents tmp = some acc) :
    (applyEffs fs (cs.map (Eff.fsAppend tmp))).contents tmp =
      some (cs.foldl (· ++ ·) acc) := by
  induction cs generalizing fs acc with
  | nil => simpa [applyEffs]
  | cons c cs ih =>
    rw [List.map_cons, applyEffs, List.foldl_cons]
    rw [show List.foldl applyEff (applyEff fs (Eff.fsAppend tmp c))
        (cs.map (Eff.fsAppend tmp)) =
        applyEffs (applyEff fs (Eff.fsAppend tmp c)) (cs.map (Eff.fsAppend tmp)) from rfl]
    rw [List.foldl_cons]
    exact ih _ (acc ++ c) (by simp [applyEff, h])

/-- Core trace lemma for an install run that reaches the rename step: over
`pre ++ create tmp :: appends ++ rename :: rest` (with `tmp ≠ p` and `pre`,
`rest` not writing `p`), the contents at `p` stay at their initial value in
every state before the rename, and are exactly the joined chunks from the
rename on; the final state holds the joined chunks at `p`. -/
theorem statesOf_install (fs0 : FS) (p tmp : String) (hne : tmp ≠ p)
    (pre : List Eff) (hpre : ∀ e ∈ pre, writesPath p e = false ∧ writesPath tmp e = false)
    (cs : List String) (rest : List Eff)
    (hrest : ∀ e ∈ rest, writesPath p e = false) :
    (∀ s ∈ statesOf fs0 (pre ++ Eff.fsCreate tmp :: (cs.map (Eff.fsAppend tmp)
        ++ Eff.fsRename tmp p :: rest)),
      s.contents p = fs0.contents p ∨ s.contents p = some (String.join cs)) ∧
    (applyEffs fs0 (pre ++ Eff.fsCreate tmp :: (cs.map (Eff.fsAppend tmp)
        ++ Eff.fsRename tmp p :: rest))).contents p = some (String.join cs) := by
  have hshape : pre ++ Eff.fsCreate tmp :: (cs.map (Eff.fsAppend tmp)
      ++ Eff.fsRename tmp p :: rest) =
      (pre ++ Eff.fsCreate tmp :: cs.map (Eff.fsAppend tmp))
        ++ Eff.fsRename tmp p :: rest := by
    simp
  have hAnoP : ∀ e ∈ pre ++ Eff.fsCreate tmp :: cs.map (Eff.fsAppend tmp),
      writesPath p e = false := by
    intro e he
    rcases List.mem_append.mp he with h1 | h1
    · exact (hpre e h1).1
    · rcases List.mem_cons.mp h1 with h2 | h2
      · rw [h2]
        simp [writesPath, hne]
      · rcases List.mem_map.mp h2 with ⟨c, _, hc⟩
        rw [← hc]
        simp [writesPath, hne]
  have hAtmp : (applyEffs fs0 (pre ++ Eff.fsCreate tmp :: cs.map (Eff.fsAppend tmp))).contents tmp
      = some (String.join cs) := by
    rw [applyEffs_append]
    rw [show applyEffs (applyEffs fs0 pre) (Eff.fsCreate tmp :: cs.map (Eff.fsAppend tmp)) =
      applyEffs (applyEff (applyEffs fs0 pre) (Eff.fsCreate tmp)) (cs.map (Eff.fsAppend tmp))
      from rfl]
    have hstart : (applyEff (applyEffs fs0 pre) (Eff.fsCreate tmp)).contents tmp = some "" := by
      show (if tmp = tmp then some "" else _) = some ""
      rw [if_pos rfl]
    rw [applyEffs_appends cs _ tmp "" hstart]
    rfl
  have hAold : (applyEffs fs0 (pre ++ Eff.fsCreate tmp :: cs.map (Eff.fsAppend tmp))).contents p
      = fs0.contents p := applyEffs_contents _ fs0 p hAnoP
  have hren : (applyEff (applyEffs fs0 (pre ++ Eff.fsCreate tmp :: cs.map (Eff.fsAppend tmp)))
      (Eff.fsRename tmp p)).contents p = some (String.join cs) := by
    show (if p = p then _ else _) = some (String.join cs)
    rw [if_pos rfl]
    exact hAtmp
  constructor
  · intro s hs
    rw [hshape, statesOf_append] at hs
    rcases List.mem_append.mp hs with h1 | h1
    · left
      have := statesOf_contents _ fs0 p hAnoP s (List.mem_of_mem_dropLast h1)
      rw [this]
    · rw [statesOf] at h1
      rcases List.mem_cons.mp h1 with h2 | h2
      · left
        rw [h2, hAold]
      · right
        have := statesOf_contents rest _ p hrest s h2
        rw [this, hren]
  · rw [hshape, applyEffs_append]
    rw [show applyEffs (applyEffs fs0 (pre ++ Eff.fsCreate tmp :: cs.map (Eff.fsAppend tmp)))
      (Eff.fsRename tmp p :: rest) =
      applyEffs (applyEff (applyEffs fs0 (pre ++ Eff.fsCreate tmp :: cs.map (Eff.fsAppend tmp)))
        (Eff.fsRename tmp p)) rest from rfl]
    rw [applyEffs_contents rest _ p hrest, hren]

/-- The `setPermissions` effect never writes file contents. -/
theorem setPermissions_nowrite (q : String) (perm : Nat) (t : String) (b : Bool) :
    writesPath q (setPermissions perm t b) = false := by
  cases b <;> simp [setPermissions, writesPath]

/-- Trace invariant for `installWith`, both strategies and every failure
point: the contents at the final path are, in every intermediate state,
either the initial contents or the fully-joined new chunks; and a
successful run performed the rename from the sibling temporary file and
ends with the new chunks installed at the final path. -/
theorem installWith_trace (b : Bool) (fDir fPath : String) (origPerm : Nat)
    (chunks : List String) (fail : FailPoint) (fs0 : FS) :
    (∀ s ∈ statesOf fs0 (installWith b fDir fPath origPerm chunks fail).2,
      s.contents fPath = fs0.contents fPath ∨
      s.contents fPath = some (String.join chunks)) ∧
    ((installWith b fDir fPath origPerm chunks fail).1 = Except.ok () →
      Eff.fsRename (fPath ++ ".tmp") fPath ∈
        (installWith b fDir fPath origPerm chunks fail).2 ∧
      (applyEffs fs0 (installWith b fDir fPath origPerm chunks fail).2).contents fPath =
        some (String.join chunks)) := by
  have hne : (fPath ++ ".tmp") ≠ fPath := append_tmp_ne fPath
  have hpre : ∀ e ∈ (if b then [Eff.elevChmod 0o777 fDir] else ([] : List Eff)),
      writesPath fPath e = false ∧ writesPath (fPath ++ ".tmp") e = false := by
    cases b <;> simp [writesPath]
  have hpost : ∀ e ∈ (if b then [Eff.elevChmod origPerm fDir] else ([] : List Eff)),
      writesPath fPath e = false := by
    cases b <;> simp [writesPath]
  have hnowr : ∀ (cs : List String),
      ∀ e ∈ (if b then [Eff.elevChmod 0o777 fDir] else ([] : List Eff))
        ++ Eff.fsCreate (fPath ++ ".tmp")
          :: (cs.map (Eff.fsAppend (fPath ++ ".tmp"))
        ++ (if b then [Eff.elevChmod origPerm fDir] else ([] : List Eff))),
      writesPath fPath e = false := by
    intro cs e he
    rcases List.mem_append.mp he with h1 | h1
    · exact (hpre e h1).1
    · rcases List.mem_cons.mp h1 with h2 | h2
      · rw [h2]
        simp [writesPath, hne]
      · rcases List.mem_append.mp h2 with h3 | h3
        · rcases List.mem_map.mp h3 with ⟨c, _, hc⟩
          rw [← hc]
          simp [writesPath, hne]
        · exact hpost e h3
  rcases fail with _ | _ | _ | _ | k | _ | _
  case noFail =>
    have hmain := statesOf_install fs0 fPath (fPath ++ ".tmp") hne
      (if b then [Eff.elevChmod 0o777 fDir] else []) hpre chunks
      (setPermissions 0o755 fPath b
        :: (if b then [Eff.elevChmod origPerm fDir] else []))
      (by
        intro e he
        rcases List.mem_cons.mp he with h1 | h1
        · rw [h1]
          exact setPermissions_nowrite fPath 0o755 fPath b
        · exact hpost e h1)
    have heq : (installWith b fDir fPath origPerm chunks .noFail).2 =
        (if b then [Eff.elevChmod 0o777 fDir] else [])
          ++ Eff.fsCreate (fPath ++ ".tmp")
            :: (chunks.map (Eff.fsAppend (fPath ++ ".tmp"))
          ++ Eff.fsRename (fPath ++ ".tmp") fPath
            :: (setPermissions 0o755 fPath b
              :: (if b then [Eff.elevChmod origPerm fDir] else []))) := by
      simp [installWith]
    rw [heq]
    refine ⟨hmain.1, fun _ => ⟨?_, hmain.2⟩⟩
    simp
  case atOpenSrc =>
    refine ⟨?_, by simp [installWith]⟩
    intro s hs
    simp [installWith, statesOf] at hs
    rw [hs]
    left
    rfl
  case atStatDir =>
    cases b
    case true =>
      refine ⟨?_, by simp [installWith]⟩
      intro s hs
      simp [installWith, statesOf] at hs
      rw [hs]
      left
      rfl
    case false =>
      have hmain := statesOf_install fs0 fPath (fPath ++ ".tmp") hne
        ([] : List Eff) (by simp) chunks
        (setPermissions 0o755 fPath false :: ([] : List Eff))
        (by
          intro e he
          rcases List.mem_cons.mp he with h1 | h1
          · rw [h1]
            exact setPermissions_nowrite fPath 0o755 fPath false
          · simp at h1)
      have heq : (installWith false fDir fPath origPerm chunks .atStatDir).2 =
          ([] : List Eff) ++ Eff.fsCreate (fPath ++ ".tmp")
            :: (chunks.map (Eff.fsAppend (fPath ++ ".tmp"))
          ++ Eff.fsRename (fPath ++ ".tmp") fPath
            :: (setPermissions 0o755 fPath false :: ([] : List Eff))) := by
        simp [installWith]
      rw [heq]
      refine ⟨hmain.1, fun _ => ⟨?_, hmain.2⟩⟩
      simp
  case atCreateDst =>
    refine ⟨?_, by simp [installWith]⟩
    intro s hs
    left
    have heq : (installWith b fDir fPath origPerm chunks .atCreateDst).2 =
        (if b then [Eff.elevChmod 0o777 fDir] else [])
          ++ (if b then [Eff.elevChmod origPerm fDir] else []) := by
      simp [installWith]
    rw [heq] at hs
    refine statesOf_contents _ fs0 fPath ?_ s hs
    intro e he
    rcases List.mem_append.mp he with h1 | h1
    · exact (hpre e h1).1
    · exact hpost e h1
  case atCopy =>
    refine ⟨?_, by simp [installWith]⟩
    intro s hs
    left
    have heq : (installWith b fDir fPath origPerm chunks (.atCopy k)).2 =
        (if b then [Eff.elevChmod 0o777 fDir] else [])
          ++ Eff.fsCreate (fPath ++ ".tmp")
            :: ((chunks.take k).map (Eff.fsAppend (fPath ++ ".tmp"))
          ++ (if b then [Eff.elevChmod origPerm fDir] else [])) := by
      simp [installWith]
    rw [heq] at hs
    exact statesOf_contents _ fs0 fPath (hnowr (chunks.take k)) s hs
  case atRename =>
    refine ⟨?_, by simp [installWith]⟩
    intro s hs
    left
    have heq : (installWith b fDir fPath origPerm chunks .atRename).2 =
        (if b then [Eff.elevChmod 0o777 fDir] else [])
          ++ Eff.fsCreate (fPath ++ ".tmp")
            :: (chunks.map (Eff.fsAppend (fPath ++ ".tmp"))
          ++ (if b then [Eff.elevChmod origPerm fDir] else [])) := by
      simp [installWith]
    rw [heq] at hs
    exact statesOf_contents _ fs0 fPath (hnowr chunks) s hs
  case atChmodFile =>
    have hmain := statesOf_install fs0 fPath (fPath ++ ".tmp") hne
      (if b then [Eff.elevChmod 0o777 fDir] else []) hpre chunks
      (if b then [Eff.elevChmod origPerm fDir] else []) hpost
    have heq : (installWith b fDir fPath origPerm chunks .atChmodFile).2 =
        (if b then [Eff.elevChmod 0o777 fDir] else [])
          ++ Eff.fsCreate (fPath ++ ".tmp")
            :: (chunks.map (Eff.fsAppend (fPath ++ ".tmp"))
          ++ Eff.fsRename (fPath ++ ".tmp") fPath
            :: (if b then [Eff.elevChmod origPerm fDir] else [])) := by
      simp [installWith]
    rw [heq]
    exact ⟨hmain.1, by simp [installWith]⟩

/-- Credential resolution only prompts, adds a keyring item, or saves the
keyring: it performs no network request and no filesystem mutation. -/
theorem getCredentials_effs (lk : KeyringLookup) (url fu fp pu pp : String) (ke : Bool) :
    ∀ e ∈ (getCredentials lk url fu fp pu pp ke).2,
      e = Eff.promptTty ∨ (∃ ci, e = Eff.keyringAdd ci) ∨ e = Eff.keyringSave := by
  intro e he
  cases lk with
  | found ci => simp [getCredentials] at he
  | errEmptyPass => simp [getCredentials] at he
  | errOther => simp [getCredentials] at he
  | errNotFound =>
    by_cases hflag : fu = "" ∨ fp = ""
    · by_cases hke : ke = true
      · have heq : (getCredentials .errNotFound url fu fp pu pp ke).2 =
            [Eff.promptTty, Eff.keyringAdd ⟨url, pu, pp⟩, Eff.keyringSave] := by
          simp [getCredentials, hflag, hke]
        rw [heq] at he
        simp at he
        rcases he with h | h | h <;> subst h <;> simp
      · have heq : (getCredentials .errNotFound url fu fp pu pp ke).2 =
            [Eff.promptTty, Eff.keyringAdd ⟨url, pu, pp⟩] := by
          simp [getCredentials, hflag, hke]
        rw [heq] at he
        simp at he
        rcases he with h | h <;> subst h <;> simp
    · by_cases hke : ke = true
      · have heq : (getCredentials .errNotFound url fu fp pu pp ke).2 =
            [Eff.keyringAdd ⟨url, fu, fp⟩, Eff.keyringSave] := by
          simp [getCredentials, hflag, hke]
        rw [heq] at he
        simp at he
        rcases he with h | h <;> subst h <;> simp
      · have heq : (getCredentials .errNotFound url fu fp pu pp ke).2 =
            [Eff.keyringAdd ⟨url, fu, fp⟩] := by
          simp [getCredentials, hflag, hke]
        rw [heq] at he
        simp at he
        subst he
        simp

/-- The initialisation step emits only credential-resolution effects. -/
theorem initVars_effs (env : Env) :
    ∀ e ∈ (initVars env).2,
      e = Eff.promptTty ∨ (∃ ci, e = Eff.keyringAdd ci) ∨ e = Eff.keyringSave := by
  intro e he
  unfold initVars at he
  split at he
  · simp at he
  · split at he
    · simp at he
    · split at he
      · simp at he
      · rename_i cfg hcfg
        split at he
        · simp at he
        · split at he
          · rename_i e1 effs heq
            have h2 := getCredentials_effs env.lookup cfg.repositoryURL env.flagUser
              env.flagPass env.promptUser env.promptPass env.keyringExists e
            rw [heq] at h2
            exact h2 he
          · rename_i ci effs heq
            have h2 := getCredentials_effs env.lookup cfg.repositoryURL env.flagUser
              env.flagPass env.promptUser env.promptPass env.keyringExists e
            rw [heq] at h2
            exact h2 he

/-- A baseline concrete environment used by the claim witnesses. -/
def envA : Env :=
  { goos := "linux"
    goarch := "amd64"
    cfg := some { repositoryURL := "https://repo.example/pla"
                  latestStable := "stable_release"
                  binMask := "%s/%s/plasmactl_%s_%s%s" }
    lookup := .found { url := "https://repo.example/pla", username := "user", password := "pass" }
    flagUser := ""
    flagPass := ""
    promptUser := "pu"
    promptPass := "pp"
    keyringExists := true
    execPath := "/usr/local/bin/plasmactl"
    isSymlink := false
    resolvedPath := ""
    tempDir := "/tmp"
    dirStat := { perm := 0o755, ownerUID := 0, groupGID := 0 }
    currentUID := 1000
    groups := [1000]
    validateResp := some { status := 200, body := "" }
    releaseResp := some { status := 200, body := " v1.2.3 " }
    binResp := some { status := 200, body := "BIN" }
    currentVersion := "v1.2.3"
    ext := ""
    tmpPerm := 0o644
    copyChunks := ["BIN"]
    failPoint := .noFail }

/-! Claim theorems. -/

/-- C1: For every run of `installFile` (direct or elevated, with any
injected failure point), the file visible at the final executable path is
at all times either the old contents or the fully-joined new contents,
never a partially-written intermediate; a successful run performed the
rename from the sibling `.tmp` file and leaves the new contents installed. -/
theorem C1_final_path_old_or_new (probe : Except UErr Unit) (fDir fPath : String)
    (origPerm : Nat) (chunks : List String) (fail : FailPoint) (fs0 : FS) :
    (∀ s ∈ statesOf fs0 (installFile probe fDir fPath origPerm chunks fail).2,
      s.contents fPath = fs0.contents fPath ∨
      s.contents fPath = some (String.join chunks)) ∧
    ((installFile probe fDir fPath origPerm chunks fail).1 = Except.ok () →
      Eff.fsRename (fPath ++ ".tmp") fPath ∈
        (installFile probe fDir fPath origPerm chunks fail).2 ∧
      (applyEffs fs0 (installFile probe fDir fPath origPerm chunks fail).2).contents fPath =
        some (String.join chunks)) := by
  rcases probe with e | u
  case ok =>
    exact installWith_trace false fDir fPath origPerm chunks fail fs0
  case error =>
    cases e
    case noWritePermission =>
      exact installWith_trace true fDir fPath origPerm chunks fail fs0
    all_goals
      refine ⟨?_, by simp [installFile, chooseInstallPath]⟩
    all_goals
      intro s hs
      simp [installFile, chooseInstallPath, statesOf] at hs
      rw [hs]
      left
      rfl

/-- C1 witness: a concrete successful direct install run; the initial
state satisfies the invariant, and the run performed the sibling-rename
and installed the joined chunks at the final path. -/
theorem C1_final_path_old_or_new_witness :
    ((FS.mk (fun _ => none) (fun _ => 0o755)).contents "/usr/local/bin/plasmactl" =
        (FS.mk (fun _ => none) (fun _ => 0o755)).contents "/usr/local/bin/plasmactl" ∨
      (FS.mk (fun _ => none) (fun _ => 0o755)).contents "/usr/local/bin/plasmactl" =
        some (String.join ["new", "binary"])) ∧
    (Eff.fsRename ("/usr/local/bin/plasmactl" ++ ".tmp") "/usr/local/bin/plasmactl" ∈
        (installFile (Except.ok ()) "/usr/local/bin" "/usr/local/bin/plasmactl"
          0o755 ["new", "binary"] .noFail).2 ∧
      (applyEffs (FS.mk (fun _ => none) (fun _ => 0o755))
        (installFile (Except.ok ()) "/usr/local/bin" "/usr/local/bin/plasmactl"
          0o755 ["new", "binary"] .noFail).2).contents "/usr/local/bin/plasmactl" =
        some (String.join ["new", "binary"])) := by
  constructor
  · refine (C1_final_path_old_or_new (Except.ok ()) "/usr/local/bin"
      "/usr/local/bin/plasmactl" 0o755 ["new", "binary"] .noFail
      (FS.mk (fun _ => none) (fun _ => 0o755))).1
      (FS.mk (fun _ => none) (fun _ => 0o755)) ?_
    show _ ∈ FS.mk (fun _ => none) (fun _ => 0o755) :: _
    exact List.mem_cons_self _ _
  · exact (C1_final_path_old_or_new (Except.ok ()) "/usr/local/bin"
      "/usr/local/bin/plasmactl" 0o755 ["new", "binary"] .noFail
      (FS.mk (fun _ => none) (fun _ => 0o755))).2 rfl

/-- C2: During an elevated install (`errNoWritePermission` probe), whenever
the directory was set to mode `777`, the very last effect of the run — on
every exit path, any injected failure included — is the elevation command
restoring the directory's original permission bits, so the final state has
the directory's permissions unchanged; and when the destination-create or
the copy step fails, the destination binary's contents and permission bits
are unchanged from before the run. -/
theorem C2_elevated_install_restores_directory (fDir fPath : String) (origPerm : Nat)
    (chunks : List String) (fail : FailPoint) (fs0 : FS)
    (hdp : fDir ≠ fPath) (hop : origPerm = fs0.perms fDir) :
    (Eff.elevChmod 0o777 fDir ∈
        (installFile (Except.error .noWritePermission) fDir fPath origPerm chunks fail).2 →
      ((installFile (Except.error .noWritePermission) fDir fPath origPerm chunks fail).2).getLast?
        = some (Eff.elevChmod origPerm fDir)) ∧
    (applyEffs fs0
        (installFile (Except.error .noWritePermission) fDir fPath origPerm chunks fail).2).perms fDir
      = fs0.perms fDir ∧
    ((fail = .atCreateDst ∨ (∃ k, fail = .atCopy k)) →
      (applyEffs fs0
          (installFile (Except.error .noWritePermission) fDir fPath origPerm chunks fail).2).contents fPath
        = fs0.contents fPath ∧
      (applyEffs fs0
          (installFile (Except.error .noWritePermission) fDir fPath origPerm chunks fail).2).perms fPath
        = fs0.perms fPath) := by
  have hfin : ∀ fsX : FS,
      (applyEffs fsX [Eff.elevChmod origPerm fDir]).perms fDir = fs0.perms fDir := by
    intro fsX
    show (if fDir = fDir then origPerm else fsX.perms fDir) = fs0.perms fDir
    rw [if_pos rfl]
    exact hop
  have hdpb : (fDir == fPath) = false := by
    rw [beq_eq_false_iff_ne]
    exact hdp
  have hneb : ((fPath ++ ".tmp") == fPath) = false := by
    rw [beq_eq_false_iff_ne]
    exact append_tmp_ne fPath
  rcases fail with _ | _ | _ | _ | k | _ | _
  case noFail =>
    have heq : (installFile (Except.error .noWritePermission) fDir fPath origPerm
        chunks .noFail).2 =
        ([Eff.elevChmod 0o777 fDir] ++ Eff.fsCreate (fPath ++ ".tmp")
          :: (chunks.map (Eff.fsAppend (fPath ++ ".tmp"))
          ++ [Eff.fsRename (fPath ++ ".tmp") fPath, Eff.elevChmod 0o755 fPath]))
        ++ [Eff.elevChmod origPerm fDir] := by
      simp [installFile, chooseInstallPath, installWith, setPermissions]
    refine ⟨fun _ => ?_, ?_, fun h => ?_⟩
    · rw [heq]
      exact List.getLast?_concat _
    · rw [heq, applyEffs_append]
      exact hfin _
    · rcases h with h | ⟨k2, h⟩ <;> simp at h
  case atOpenSrc =>
    have heq : (installFile (Except.error .noWritePermission) fDir fPath origPerm
        chunks .atOpenSrc).2 = [] := by
      simp [installFile, chooseInstallPath, installWith]
    refine ⟨fun hmem => ?_, ?_, fun h => ?_⟩
    · rw [heq] at hmem
      simp at hmem
    · rw [heq]
      rfl
    · rcases h with h | ⟨k2, h⟩ <;> simp at h
  case atStatDir =>
    have heq : (installFile (Except.error .noWritePermission) fDir fPath origPerm
        chunks .atStatDir).2 = [] := by
      simp [installFile, chooseInstallPath, installWith]
    refine ⟨fun hmem => ?_, ?_, fun h => ?_⟩
    · rw [heq] at hmem
      simp at hmem
    · rw [heq]
      rfl
    · rcases h with h | ⟨k2, h⟩ <;> simp at h
  case atCreateDst =>
    have heq : (installFile (Except.error .noWritePermission) fDir fPath origPerm
        chunks .atCreateDst).2 =
        [Eff.elevChmod 0o777 fDir] ++ [Eff.elevChmod origPerm fDir] := by
      simp [installFile, chooseInstallPath, installWith]
    refine ⟨fun _ => ?_, ?_, fun _ => ⟨?_, ?_⟩⟩
    · rw [heq]
      exact List.getLast?_concat _
    · rw [heq, applyEffs_append]
      exact hfin _
    · rw [heq]
      refine applyEffs_contents _ fs0 fPath ?_
      intro e he
      rcases List.mem_append.mp he with h | h <;> simp at h <;> rw [h] <;> rfl
    · rw [heq]
      refine applyEffs_perms _ fs0 fPath ?_
      intro e he
      rcases List.mem_append.mp he with h | h <;> simp at h <;> rw [h] <;>
        simp [touchesPerms, hdpb]
  case atCopy =>
    have heq : (installFile (Except.error .noWritePermission) fDir fPath origPerm
        chunks (.atCopy k)).2 =
        ([Eff.elevChmod 0o777 fDir] ++ Eff.fsCreate (fPath ++ ".tmp")
          :: (chunks.take k).map (Eff.fsAppend (fPath ++ ".tmp")))
        ++ [Eff.elevChmod origPerm fDir] := by
      simp [installFile, chooseInstallPath, installWith]
    refine ⟨fun _ => ?_, ?_, fun _ => ⟨?_, ?_⟩⟩
    · rw [heq]
      exact List.getLast?_concat _
    · rw [heq, applyEffs_append]
      exact hfin _
    · rw [heq]
      refine applyEffs_contents _ fs0 fPath ?_
      intro e he
      rcases List.mem_append.mp he with h | h
      · rcases List.mem_append.mp h with h1 | h1
        · simp at h1
          rw [h1]
          rfl
        · rcases List.mem_cons.mp h1 with h2 | h2
          · rw [h2]
            simp [writesPath, hneb]
          · rcases List.mem_map.mp h2 with ⟨c, _, hc⟩
            rw [← hc]
            simp [writesPath, hneb]
      · simp at h
        rw [h]
        rfl
    · rw [heq]
      refine applyEffs_perms _ fs0 fPath ?_
      intro e he
      rcases List.mem_append.mp he with h | h
      · rcases List.mem_append.mp h with h1 | h1
        · simp at h1
          rw [h1]
          simp [touchesPerms, hdpb]
        · rcases List.mem_cons.mp h1 with h2 | h2
          · rw [h2]
            rfl
          · rcases List.mem_map.mp h2 with ⟨c, _, hc⟩
            rw [← hc]
            rfl
      · simp at h
        rw [h]
        simp [touchesPerms, hdpb]
  case atRename =>
    have heq : (installFile (Except.error .noWritePermission) fDir fPath origPerm
        chunks .atRename).2 =
        ([Eff.elevChmod 0o777 fDir] ++ Eff.fsCreate (fPath ++ ".tmp")
          :: chunks.map (Eff.fsAppend (fPath ++ ".tmp")))
        ++ [Eff.elevChmod origPerm fDir] := by
      simp [installFile, chooseInstallPath, installWith]
    refine ⟨fun _ => ?_, ?_, fun h => ?_⟩
    · rw [heq]
      exact List.getLast?_concat _
    · rw [heq, applyEffs_append]
      exact hfin _
    · rcases h with h | ⟨k2, h⟩ <;> simp at h
  case atChmodFile =>
    have heq : (installFile (Except.error .noWritePermission) fDir fPath origPerm
        chunks .atChmodFile).2 =
        ([Eff.elevChmod 0o777 fDir] ++ Eff.fsCreate (fPath ++ ".tmp")
          :: (chunks.map (Eff.fsAppend (fPath ++ ".tmp"))
          ++ [Eff.fsRename (fPath ++ ".tmp") fPath]))
        ++ [Eff.elevChmod origPerm fDir] := by
      simp [installFile, chooseInstallPath, installWith]
    refine ⟨fun _ => ?_, ?_, fun h => ?_⟩
    · rw [heq]
      exact List.getLast?_concat _
    · rw [heq, applyEffs_append]
      exact hfin _
    · rcases h with h | ⟨k2, h⟩ <;> simp at h

/-- C2 witness: a concrete elevated install whose copy step fails after
zero chunks; the directory's permission bits are back to their initial
value in the final state. -/
theorem C2_elevated_install_restores_directory_witness :
    (applyEffs (FS.mk (fun _ => none) (fun _ => 0o755))
        (installFile (Except.error .noWritePermission) "/usr/local/bin"
          "/usr/local/bin/plasmactl" 0o755 ["new"] (.atCopy 0)).2).perms "/usr/local/bin"
      = (FS.mk (fun _ => none) (fun _ => 0o755)).perms "/usr/local/bin" ∧
    (applyEffs (FS.mk (fun _ => none) (fun _ => 0o755))
        (installFile (Except.error .noWritePermission) "/usr/local/bin"
          "/usr/local/bin/plasmactl" 0o755 ["new"] (.atCopy 0)).2).contents "/usr/local/bin/plasmactl"
      = (FS.mk (fun _ => none) (fun _ => 0o755)).contents "/usr/local/bin/plasmactl" := by
  refine ⟨?_, ?_⟩
  · exact (C2_elevated_install_restores_directory "/usr/local/bin"
      "/usr/local/bin/plasmactl" 0o755 ["new"] (.atCopy 0)
      (FS.mk (fun _ => none) (fun _ => 0o755)) (by decide) rfl).2.1
  · exact ((C2_elevated_install_restores_directory "/usr/local/bin"
      "/usr/local/bin/plasmactl" 0o755 ["new"] (.atCopy 0)
      (FS.mk (fun _ => none) (fun _ => 0o755)) (by decide) rfl).2.2
      (Or.inr ⟨0, rfl⟩)).1

/-- C3: When the trimmed stable-release response equals the currently
running version — `isUpToDate` is a plain string equality — the pipeline
terminates successfully, performs no filesystem mutation at all, and the
only network requests are the credential-validation and release-lookup
GETs (in particular no binary download). -/
theorem C3_up_to_date_short_circuit (env : Env) (v : InitVars) (r : HTTPResponse)
    (hinit : (initVars env).1 = Except.ok v)
    (hval : validateCredentials env.validateResp = Except.ok ())
    (hrel : env.releaseResp = some r)
    (hver : trimString r.body = env.currentVersion) :
    (runCommands env).1 = Except.ok () ∧
    (∀ e ∈ (runCommands env).2, isFsMutation e = false) ∧
    (∀ u, Eff.netGet u ∈ (runCommands env).2 →
      u = v.cfg.repositoryURL ∨ u = v.cfg.repositoryURL ++ "/" ++ v.cfg.latestStable) := by
  have hrun : runCommands env =
      (Except.ok (), (initVars env).2 ++ [Eff.netGet v.cfg.repositoryURL]
        ++ [Eff.netGet (v.cfg.repositoryURL ++ "/" ++ v.cfg.latestStable)]) := by
    rcases hIV : initVars env with ⟨res, effs0⟩
    rw [hIV] at hinit
    simp only [] at hinit
    subst hinit
    unfold runCommands
    rw [hIV]
    simp [hval, getStableRelease, hrel, isUpToDate, hver]
  refine ⟨?_, ?_, ?_⟩
  · rw [hrun]
  · intro e he
    rw [hrun] at he
    simp only [List.append_assoc, List.mem_append, List.mem_singleton] at he
    rcases he with h | h | h
    · rcases initVars_effs env e h with h1 | ⟨ci, h1⟩ | h1 <;> rw [h1] <;> rfl
    · rw [h]
      rfl
    · rw [h]
      rfl
  · intro u hu
    rw [hrun] at hu
    simp only [List.append_assoc, List.mem_append, List.mem_singleton] at hu
    rcases hu with h | h | h
    · rcases initVars_effs env _ h with h1 | ⟨ci, h1⟩ | h1 <;> simp at h1
    · left
      injection h
    · right
      injection h

/-- C3 witness: in the baseline environment the release response trims to
the running version, so the pipeline succeeds without mutating anything. -/
theorem C3_up_to_date_short_circuit_witness :
    (runCommands envA).1 = Except.ok () := by
  refine (C3_up_to_date_short_circuit envA
    { osName := "linux", arch := "amd64"
      paths := findExecPaths "/usr/local/bin/plasmactl" false "" "/tmp"
      creds := { url := "https://repo.example/pla", username := "user", password := "pass" }
      cfg := { repositoryURL := "https://repo.example/pla"
               latestStable := "stable_release"
               binMask := "%s/%s/plasmactl_%s_%s%s" } }
    { status := 200, body := " v1.2.3 " }
    (by decide) (by decide) rfl (by decide)).1

/-- C4 counterexample: a 404 release-lookup response is returned as a
success carrying the body as the version string, and a 404 binary-download
response is also a success — neither call surfaces any error, so a 404
does not produce a missing-artifact error distinct from anything. -/
theorem C4_counterexample :
    (getStableRelease "https://repo.example/pla/stable_release"
      (some { status := 404, body := "NotFound" })).1 = Except.ok "NotFound" ∧
    (downloadFile "https://repo.example/pla/v1/bin"
      (some { status := 404, body := "NotFound" }) "/tmp/plasmactl" 0o644).1 =
      Except.ok () := by
  constructor
  · decide
  · decide

/-- C4 (amended): neither the release-lookup nor the binary-download
inspects the HTTP status — both succeed on any received response; status
classification happens only in the credential-validation request, where
401 and 404 (and status 0) all map to the same invalid-credentials error
and any other non-200 status produces no error at all. -/
theorem C4_status_classification_only_in_validate :
    (∀ url r, (getStableRelease url (some r)).1 = Except.ok (trimString r.body)) ∧
    (∀ url r p m, (downloadFile url (some r) p m).1 = Except.ok ()) ∧
    (∀ b, validateCredentials (some { status := 401, body := b }) =
      Except.error .invalidCreds) ∧
    (∀ b, validateCredentials (some { status := 404, body := b }) =
      Except.error .invalidCreds) ∧
    (∀ r, r.status ≠ 0 → r.status ≠ 200 → r.status ≠ 401 → r.status ≠ 404 →
      validateCredentials (some r) = Except.ok ()) := by
  refine ⟨fun url r => rfl, fun url r p m => rfl, fun b => rfl, fun b => rfl, ?_⟩
  intro r h0 h200 h401 h404
  simp only [validateCredentials]
  rw [if_neg h0, if_neg h200, if_neg h401, if_neg h404]

/-- C4 witness: a 500 response on the validation probe is not surfaced as
an error, while 401 and 404 both yield the invalid-credentials error. -/
theorem C4_status_classification_only_in_validate_witness :
    validateCredentials (some { status := 500, body := "boom" }) = Except.ok () ∧
    validateCredentials (some { status := 401, body := "" }) =
      Except.error .invalidCreds ∧
    validateCredentials (some { status := 404, body := "" }) =
      Except.error .invalidCreds := by
  refine ⟨?_, ?_, ?_⟩
  · exact C4_status_classification_only_in_validate.2.2.2.2
      { status := 500, body := "boom" } (by decide) (by decide) (by decide) (by decide)
  · exact C4_status_classification_only_in_validate.2.2.1 ""
  · exact C4_status_classification_only_in_validate.2.2.2.1 ""

/-- C5 counterexample: a 64-bit x86 host yields the raw identifier
`amd64`, not a vendor alias `x86_64` — no architecture mapping exists. -/
theorem C5_counterexample :
    getArch "amd64" = Except.ok "amd64" ∧
    getArch "amd64" ≠ Except.ok "x86_64" := by
  constructor
  · decide
  · decide

/-- C5 (amended): the platform probe returns the raw identifier for every
supported architecture (no alias mapping), errors on anything else, and an
unsupported OS or architecture aborts the pipeline with an empty effect
list — before any network request or filesystem side effect. -/
theorem C5_platform_probe_fail_fast :
    (∀ a, a = "amd64" ∨ a = "386" ∨ a = "arm64" → getArch a = Except.ok a) ∧
    (∀ a, ¬(a = "amd64" ∨ a = "386" ∨ a = "arm64") →
      getArch a = Except.error .unsupportedArch) ∧
    (∀ env : Env, getOS env.goos = Except.error .unsupportedOS →
      runCommands env = (Except.error .unsupportedOS, [])) ∧
    (∀ (env : Env) (osName : String), getOS env.goos = Except.ok osName →
      getArch env.goarch = Except.error .unsupportedArch →
      runCommands env = (Except.error .unsupportedArch, [])) := by
  refine ⟨?_, ?_, ?_, ?_⟩
  · intro a h
    unfold getArch
    rw [if_pos h]
  · intro a h
    unfold getArch
    rw [if_neg h]
  · intro env h
    unfold runCommands initVars
    rw [h]
  · intro env osName hos harch
    unfold runCommands initVars
    rw [hos, harch]

/-- C5 witness: a supported architecture is returned raw; a Windows host
and a RISC-V host abort the pipeline with no effects at all. -/
theorem C5_platform_probe_fail_fast_witness :
    getArch "arm64" = Except.ok "arm64" ∧
    runCommands { envA with goos := "windows" } = (Except.error .unsupportedOS, []) ∧
    runCommands { envA with goarch := "riscv64" } = (Except.error .unsupportedArch, []) := by
  refine ⟨?_, ?_, ?_⟩
  · exact C5_platform_probe_fail_fast.1 "arm64" (Or.inr (Or.inr rfl))
  · exact C5_platform_probe_fail_fast.2.2.1 { envA with goos := "windows" } (by decide)
  · exact C5_platform_probe_fail_fast.2.2.2 { envA with goarch := "riscv64" }
      "linux" (by decide) (by decide)

/-- C6: the install strategy is the direct path exactly when the probe
grants eligibility — current UID owns the directory and the owner-write
bit is set, or the group-write bit is set and the directory GID is among
the user's groups — and the elevated path exactly otherwise. -/
theorem C6_write_probe_decides_path (st : DirStat) (uid : Nat) (groups : List Nat) :
    (chooseInstallPath (hasWritePermissions st uid groups) = Except.ok .direct ↔
      ((uid = st.ownerUID ∧ st.perm.testBit 7 = true) ∨
       (st.perm.testBit 4 = true ∧ st.groupGID ∈ groups))) ∧
    (chooseInstallPath (hasWritePermissions st uid groups) = Except.ok .elevated ↔
      ¬((uid = st.ownerUID ∧ st.perm.testBit 7 = true) ∨
        (st.perm.testBit 4 = true ∧ st.groupGID ∈ groups))) := by
  by_cases h : ((uid == st.ownerUID && st.perm.testBit 7) ||
      (st.perm.testBit 4 && groups.contains st.groupGID)) = true
  · have hok : hasWritePermissions st uid groups = Except.ok () := by
      unfold hasWritePermissions
      rw [if_pos h]
    have hprop : (uid = st.ownerUID ∧ st.perm.testBit 7 = true) ∨
        (st.perm.testBit 4 = true ∧ st.groupGID ∈ groups) := by
      simpa using h
    rw [hok]
    constructor
    · simp [chooseInstallPath, hprop]
    · simp [chooseInstallPath, hprop]
  · have hko : hasWritePermissions st uid groups = Except.error .noWritePermission := by
      unfold hasWritePermissions
      rw [if_neg h]
    have hprop : ¬((uid = st.ownerUID ∧ st.perm.testBit 7 = true) ∨
        (st.perm.testBit 4 = true ∧ st.groupGID ∈ groups)) := by
      simpa using h
    rw [hko]
    constructor
    · simp [chooseInstallPath, hprop]
    · simp [chooseInstallPath, hprop]

/-- C7: keyring lookup outcomes — a found item is returned unchanged; a
not-found lookup takes the interactive path: the item is added, the
keyring saved when it exists, and the terminal prompted when a credential
flag is missing; any other lookup failure is the distinct malformed-store
error with no effects at all, and only the not-found outcome ever reaches
the prompt. -/
theorem C7_keyring_three_outcomes (url fu fp pu pp : String) (ke : Bool) :
    (∀ ci, getCredentials (.found ci) url fu fp pu pp ke = (Except.ok ci, [])) ∧
    (getCredentials .errOther url fu fp pu pp ke =
      (Except.error .malformedKeyring, [])) ∧
    ((getCredentials .errNotFound url fu fp pu pp ke).1.isOk = true) ∧
    (∃ ci, Eff.keyringAdd ci ∈ (getCredentials .errNotFound url fu fp pu pp ke).2) ∧
    (ke = true → Eff.keyringSave ∈ (getCredentials .errNotFound url fu fp pu pp ke).2) ∧
    ((fu = "" ∨ fp = "") →
      Eff.promptTty ∈ (getCredentials .errNotFound url fu fp pu pp ke).2) ∧
    (∀ lk, Eff.promptTty ∈ (getCredentials lk url fu fp pu pp ke).2 →
      lk = .errNotFound) := by
  refine ⟨fun ci => rfl, rfl, ?_, ?_, ?_, ?_, ?_⟩
  · by_cases hflag : fu = "" ∨ fp = "" <;>
      simp [getCredentials, hflag, Except.isOk, Except.toBool]
  · by_cases hflag : fu = "" ∨ fp = "" <;> by_cases hke : ke = true <;>
      simp [getCredentials, hflag, hke]
  · intro hke
    by_cases hflag : fu = "" ∨ fp = "" <;> simp [getCredentials, hflag, hke]
  · intro hflag
    by_cases hke : ke = true <;> simp [getCredentials, hflag, hke]
  · intro lk hmem
    cases lk with
    | found ci => simp [getCredentials] at hmem
    | errEmptyPass => simp [getCredentials] at hmem
    | errOther => simp [getCredentials] at hmem
    | errNotFound => rfl

/-- C7 witness: with empty flags, an existing keyring and a not-found
lookup, the run prompts, adds and saves; a found item is returned as-is;
a corrupt-store lookup yields the malformed-store error. -/
theorem C7_keyring_three_outcomes_witness :
    getCredentials (.found { url := "https://r", username := "u", password := "p" })
      "https://r" "" "" "pu" "pp" true =
      (Except.ok { url := "https://r", username := "u", password := "p" }, []) ∧
    getCredentials .errOther "https://r" "" "" "pu" "pp" true =
      (Except.error .malformedKeyring, []) ∧
    Eff.keyringSave ∈ (getCredentials .errNotFound "https://r" "" "" "pu" "pp" true).2 ∧
    Eff.promptTty ∈ (getCredentials .errNotFound "https://r" "" "" "pu" "pp" true).2 := by
  refine ⟨?_, ?_, ?_, ?_⟩
  · exact (C7_keyring_three_outcomes "https://r" "" "" "pu" "pp" true).1 _
  · exact (C7_keyring_three_outcomes "https://r" "" "" "pu" "pp" true).2.1
  · exact (C7_keyring_three_outcomes "https://r" "" "" "pu" "pp" true).2.2.2.2.1 rfl
  · exact (C7_keyring_three_outcomes "https://r" "" "" "pu" "pp" true).2.2.2.2.2.1
      (Or.inl rfl)

/-- C8 counterexample: a response with error status 500 does not abort
`downloadFile`; the temporary file is created and written and the call
succeeds. -/
theorem C8_counterexample :
    (downloadFile "https://repo.example/pla/v1/bin"
      (some { status := 500, body := "error page" }) "/tmp/plasmactl" 0o644).1 =
      Except.ok () ∧
    Eff.fsCreate "/tmp/plasmactl" ∈
      (downloadFile "https://repo.example/pla/v1/bin"
        (some { status := 500, body := "error page" }) "/tmp/plasmactl" 0o644).2 := by
  constructor
  · decide
  · decide

/-- C8 (amended): `downloadFile` aborts before touching the temporary file
only on a transport-level failure; for every received response, whatever
its status, the temporary file is created and the body written into it. -/
theorem C8_temp_file_touched_on_any_response :
    (∀ url p m, downloadFile url none p m =
      (Except.error .netFailure, [Eff.netGet url])) ∧
    (∀ url r p m, Eff.fsCreate p ∈ (downloadFile url (some r) p m).2 ∧
      Eff.fsWrite p r.body ∈ (downloadFile url (some r) p m).2) := by
  refine ⟨fun url p m => rfl, fun url r p m => ⟨?_, ?_⟩⟩
  · simp [downloadFile]
  · simp [downloadFile]

/-- C9 counterexample: two runs updating different executables that share
a base name use the very same temporary download path. -/
theorem C9_counterexample :
    (findExecPaths "/usr/local/bin/plasmactl" false "" "/tmp").fTmpPath =
      (findExecPaths "/home/user/bin/plasmactl" false "" "/tmp").fTmpPath := by
  decide

/-- C9 (amended): the temporary download path is
`filepath.Join(os.TempDir(), fName)` — it lives in the OS temporary
directory but is a deterministic function of the executable's base name,
so any two runs agreeing on the temp directory and base name share it. -/
theorem C9_temp_path_deterministic (e1 : String) (s1 : Bool) (r1 : String)
    (e2 : String) (s2 : Bool) (r2 : String) (td : String) :
    (findExecPaths e1 s1 r1 td).fTmpPath =
      joinPath td ((findExecPaths e1 s1 r1 td).fName) ∧
    ((findExecPaths e1 s1 r1 td).fName = (findExecPaths e2 s2 r2 td).fName →
      (findExecPaths e1 s1 r1 td).fTmpPath = (findExecPaths e2 s2 r2 td).fTmpPath) := by
  constructor
  · rfl
  · intro h
    simp only [findExecPaths] at h ⊢
    rw [joinPath, joinPath, h]

/-- C9 witness: concrete paths sharing a base name and temp directory. -/
theorem C9_temp_path_deterministic_witness :
    (findExecPaths "/usr/local/bin/plasmactl" false "" "/tmp").fTmpPath =
      (findExecPaths "/opt/bin/plasmactl" false "" "/tmp").fTmpPath :=
  (C9_temp_path_deterministic "/usr/local/bin/plasmactl" false ""
    "/opt/bin/plasmactl" false "" "/tmp").2 (by decide)

/-- C10: the write-eligibility probe never consults the other-write bit —
its verdict depends only on permission bits 7 and 4 — and a directory
writable only through the other-write class (owner and group checks both
failing, e.g. mode `0777` owned by another user whose group the current
user lacks) is denied, sending `installFile` down the elevated path. -/
theorem C10_other_write_bit_ignored :
    (∀ (o g u : Nat) (gs : List Nat) (p1 p2 : Nat),
      p1.testBit 7 = p2.testBit 7 → p1.testBit 4 = p2.testBit 4 →
      hasWritePermissions { perm := p1, ownerUID := o, groupGID := g } u gs =
        hasWritePermissions { perm := p2, ownerUID := o, groupGID := g } u gs) ∧
    (∀ (st : DirStat) (u : Nat) (gs : List Nat),
      u ≠ st.ownerUID → st.groupGID ∉ gs →
      hasWritePermissions st u gs = Except.error .noWritePermission ∧
      chooseInstallPath (hasWritePermissions st u gs) = Except.ok .elevated) := by
  constructor
  · intro o g u gs p1 p2 h7 h4
    unfold hasWritePermissions
    rw [h7, h4]
  · intro st u gs hu hg
    have hko : hasWritePermissions st u gs = Except.error .noWritePermission := by
      unfold hasWritePermissions
      rw [if_neg]
      simp [hu, hg]
    exact ⟨hko, by rw [hko]; rfl⟩

/-- C10 witness: a mode `0777` directory owned by root with group root is
denied for a non-root user outside that group, and the probe's verdict on
mode `0755` equals its verdict on `0757` (other-write toggled). -/
theorem C10_other_write_bit_ignored_witness :
    hasWritePermissions { perm := 0o777, ownerUID := 0, groupGID := 0 } 1000 [1000] =
      Except.error .noWritePermission ∧
    chooseInstallPath
      (hasWritePermissions { perm := 0o777, ownerUID := 0, groupGID := 0 } 1000 [1000]) =
      Except.ok .elevated ∧
    hasWritePermissions { perm := 0o755, ownerUID := 0, groupGID := 0 } 1000 [1000] =
      hasWritePermissions { perm := 0o757, ownerUID := 0, groupGID := 0 } 1000 [1000] := by
  refine ⟨?_, ?_, ?_⟩
  · exact (C10_other_write_bit_ignored.2
      { perm := 0o777, ownerUID := 0, groupGID := 0 } 1000 [1000]
      (by decide) (by decide)).1
  · exact (C10_other_write_bit_ignored.2
      { perm := 0o777, ownerUID := 0, groupGID := 0 } 1000 [1000]
      (by decide) (by decide)).2
  · exact C10_other_write_bit_ignored.1 0 0 1000 [1000] 0o755 0o757
      (by decide) (by decide)

end PlasmactlUpdate
